import Mathlib

/-!
Verification of the basic-mcp-server toolset (Python sources:
`main.py`, `read_files.py`, `write_files.py`, `exec_cli.py`).

The embedding models the Python string primitives used by the tools
(`str.find`, `str.replace` with and without a count, `os.path.isabs`,
`os.path.normpath` for POSIX, `os.path.join`, `str.split`) on `List Char`
and `String`, and models the filesystem visible to the tools as a finite
association list from path strings to file contents together with an
abstract per-path write-fault oracle standing for the OS errors that the
`try`/`except` blocks catch (permission denied, disk full, ...).  Read
failures are modelled as absence of the file.  Python `dict`s are
modelled as association lists with in-place overwrite on duplicate keys,
matching insertion-order semantics.
-/

namespace McpServer

/-! ## Python string primitives -/

/-- First index at which `needle` occurs in the haystack, as computed by
Python `str.find` (`some i` for index `i`, `none` for Python's `-1`).
An empty needle is found at index 0, as in Python. -/
def pyFindL (needle : List Char) : List Char → Option Nat
  | [] => if needle = [] then some 0 else none
  | c :: rest =>
    if needle.isPrefixOf (c :: rest) then some 0
    else (pyFindL needle rest).map (· + 1)

/-- Python `str.replace(needle, sub, 1)`: replace the first occurrence of
`needle` only.  For an empty needle Python inserts `sub` at the front. -/
def replaceFirstL (needle sub : List Char) : List Char → List Char
  | [] => if needle = [] then sub else []
  | c :: rest =>
    if needle.isPrefixOf (c :: rest) then sub ++ (c :: rest).drop needle.length
    else c :: replaceFirstL needle sub rest

/-- Python `str.replace` with an empty needle: the substitute is
inserted before every character and at the end. -/
def replaceAllEmpty (sub : List Char) : List Char → List Char
  | [] => sub
  | c :: rest => sub ++ c :: replaceAllEmpty sub rest

/-- Fuel-driven worker for Python `str.replace(needle, sub)` with a
non-empty needle: left-to-right, non-overlapping.  Started with
`fuel = length of the haystack`, the fuel never runs out. -/
def replaceAllFuel (needle sub : List Char) : Nat → List Char → List Char
  | _, [] => []
  | 0, s => s
  | fuel + 1, c :: rest =>
    if needle.isPrefixOf (c :: rest) then
      sub ++ replaceAllFuel needle sub fuel (rest.drop (needle.length - 1))
    else
      c :: replaceAllFuel needle sub fuel rest

/-- Python `str.replace(needle, sub)` (no count: every occurrence). -/
def replaceAllL (needle sub s : List Char) : List Char :=
  if needle = [] then replaceAllEmpty sub s
  else replaceAllFuel needle sub s.length s

/-- `hay.find(needle)` on Lean strings. -/
def pyFindS (needle hay : String) : Option Nat :=
  pyFindL needle.data hay.data

/-- `hay.replace(needle, sub, 1)` on Lean strings. -/
def pyReplaceFirst (hay needle sub : String) : String :=
  String.mk (replaceFirstL needle.data sub.data hay.data)

/-- `hay.replace(needle, sub)` on Lean strings. -/
def pyReplaceAll (hay needle sub : String) : String :=
  String.mk (replaceAllL needle.data sub.data hay.data)

/-! ## POSIX path functions (`os.path` with `os.sep = "/"`)

The `String` library functions (`splitOn`, `startsWith`, ...) are
re-implemented on `List Char` so that terms evaluate by kernel
reduction. -/

/-- Python `s.split("/")` on a character list. -/
def splitSlash : List Char → List (List Char)
  | [] => [[]]
  | c :: rest =>
    if c = '/' then [] :: splitSlash rest
    else
      match splitSlash rest with
      | [] => [[c]]
      | s :: ss => (c :: s) :: ss

/-- Python `s.split("/")` on strings. -/
def strSplitSlash (s : String) : List String :=
  (splitSlash s.data).map String.mk

/-- Concatenate path components with `/` between them (Python
`"/".join(comps)`). -/
def joinComps : List String → String
  | [] => ""
  | [s] => s
  | s :: rest => s ++ "/" ++ joinComps rest

/-- A run of `n` slashes. -/
def slashes : Nat → String
  | 0 => ""
  | n + 1 => "/" ++ slashes n

/-- `os.path.isabs` on POSIX: the path starts with a slash. -/
def isabs (p : String) : Bool :=
  match p.data with
  | '/' :: _ => true
  | _ => false

/-- Number of leading slashes preserved by POSIX `normpath`: exactly two
leading slashes are kept as two, any other count collapses to one. -/
def initialSlashes (p : String) : Nat :=
  match p.data with
  | '/' :: '/' :: '/' :: _ => 1
  | '/' :: '/' :: _ => 2
  | '/' :: _ => 1
  | _ => 0

/-- The component loop of POSIX `os.path.normpath`: drop empty and `.`
components; a `..` is kept when the path is relative and nothing precedes
it, or when the previous kept component is itself `..`; otherwise it pops
the previous component. -/
def normpathComps (isl : Nat) (comps : List String) : List String :=
  comps.foldl
    (fun acc comp =>
      if comp = "" ∨ comp = "." then acc
      else if comp ≠ ".." ∨ (isl = 0 ∧ acc = []) ∨ acc.getLast? = some ".." then
        acc ++ [comp]
      else if acc ≠ [] then acc.dropLast
      else acc)
    []

/-- POSIX `os.path.normpath`. -/
def normpath (p : String) : String :=
  if p = "" then "."
  else
    let isl := initialSlashes p
    let newComps := normpathComps isl (strSplitSlash p)
    let joined := slashes isl ++ joinComps newComps
    if joined = "" then "." else joined

/-- `os.path.join(a, b)` on POSIX for two arguments. -/
def pjoin (a b : String) : String :=
  if isabs b then b
  else if a = "" ∨ a.data.getLast? = some '/' then a ++ b
  else a ++ "/" ++ b

/-! ## validate_path (src/write_files.py lines 7-32) -/

/-- A single-quote character as a string (written via its code point to
keep the source free of quote-literal pitfalls). -/
def squote : String := String.mk [Char.ofNat 39]

/-- The message returned by `validate_path` for a non-absolute path. -/
def msgNotAbsolute (p : String) : String :=
  "Error: Path " ++ squote ++ p ++ squote
    ++ " is not absolute. Only absolute paths are allowed."

/-- The message returned by `validate_path` for a path whose normalized
form contains a parent-directory component. -/
def msgParentSegment (p : String) : String :=
  "Error: Path " ++ squote ++ p ++ squote ++ " contains " ++ squote ++ ".." ++ squote
    ++ " symbols which are not allowed."

/-- `validate_path` from src/write_files.py: reject non-absolute paths;
otherwise normalize, split on the separator and reject when any component
equals `..`; else accept with an empty message. -/
def validate_path (path : String) : Bool × String :=
  if ¬ isabs path then (false, msgNotAbsolute path)
  else if (strSplitSlash (normpath path)).contains ".." then (false, msgParentSegment path)
  else (true, "")

/-! ## Python dictionaries and the filesystem state -/

/-- Lookup in a Python dictionary modelled as an insertion-ordered
association list. -/
def dictLookup {α : Type} : List (String × α) → String → Option α
  | [], _ => none
  | (k, v) :: rest, key => if k = key then some v else dictLookup rest key

/-- Python `d[key] = v`: overwrite in place when the key is present,
append otherwise. -/
def dictInsert {α : Type} : List (String × α) → String → α → List (String × α)
  | [], key, v => [(key, v)]
  | (k, w) :: rest, key, v =>
    if k = key then (key, v) :: rest else (k, w) :: dictInsert rest key v

/-- The filesystem as the tools observe it: a mapping from path strings
to file contents, together with an oracle `writeError` giving, per path,
the error text of the OS fault (permission denied, disk full, ...)
raised inside the `try` blocks when creating directories or opening the
path for writing, or `none` when those operations succeed.  Read
failures are modelled as absence of the path from `files`. -/
structure FS where
  files : List (String × String)
  writeError : String → Option String

/-- The OS faults are exception texts; none of them is the literal
string returned on success. -/
def faultsNotSuccess (fs : FS) : Prop :=
  ∀ p m, fs.writeError p = some m → m ≠ "Success"

/-- Text of Python `str(FileNotFoundError)` for a missing path, produced
when `open(path, "r+")` fails. -/
def fileNotFoundMsg (path : String) : String :=
  "[Errno 2] No such file or directory: " ++ squote ++ path ++ squote

/-! ## Write tools (src/write_files.py) -/

/-- Body of the `try` block of `write_whole_file` and of one iteration of
`write_multiple_files`: `os.makedirs(dirname, exist_ok=True)` followed by
`open(path, "w")` and `f.write(content)`, with the `except` clause
returning `str(e)`. -/
def writeInner (fs : FS) (path content : String) : String × FS :=
  match fs.writeError path with
  | some msg => (msg, fs)
  | none => ("Success", { fs with files := dictInsert fs.files path content })

/-- `write_whole_file` from src/write_files.py: validate the path, then
create the parent directories and overwrite the file, catching faults. -/
def write_whole_file (fs : FS) (path content : String) : String × FS :=
  if (validate_path path).1 = false then ((validate_path path).2, fs)
  else writeInner fs path content

/-- One call argument of `write_multiple_files`: a Python `dict` expected
to carry the keys `path` and `content`. -/
def PyDict := List (String × String)

/-- Python `repr` of an uncaught `KeyError(key)` escaping
`write_multiple_files` when an item lacks a required key. -/
def keyErrorMsg (key : String) : String :=
  "KeyError: " ++ squote ++ key ++ squote

/-- The loop of `write_multiple_files` from src/write_files.py, carried
over the results dictionary.  The subscript accesses `file_info["path"]`
and `file_info["content"]` sit before the `try` block, so a missing key
raises (modelled as `Except.error`) rather than adding a result entry;
writes performed by earlier iterations persist. -/
def write_multiple_files_go (fs : FS) (results : List (String × String)) :
    List PyDict → Except String (List (String × String)) × FS
  | [] => (Except.ok results, fs)
  | item :: rest =>
    match dictLookup item "path" with
    | none => (Except.error (keyErrorMsg "path"), fs)
    | some path =>
      match dictLookup item "content" with
      | none => (Except.error (keyErrorMsg "content"), fs)
      | some content =>
        if (validate_path path).1 = false then
          write_multiple_files_go fs (dictInsert results path (validate_path path).2) rest
        else
          write_multiple_files_go (writeInner fs path content).2
            (dictInsert results path (writeInner fs path content).1) rest

/-- `write_multiple_files` from src/write_files.py. -/
def write_multiple_files (fs : FS) (files : List PyDict) :
    Except String (List (String × String)) × FS :=
  write_multiple_files_go fs [] files

/-- The fixed message rejecting an empty `match` argument. -/
def emptyMatchMsg : String :=
  "Error: " ++ squote ++ "match" ++ squote
    ++ " argument cannot be empty string. Provide correct part of file."

/-- The fixed message returned when the `match` string is absent from the
file contents. -/
def notFoundMsg : String := "Error: match not found in file contents"

/-- `edit_files` from src/write_files.py: reject an empty `match`, then
validate the path, then open the file for read/write (failing when it is
absent or the OS faults), check that `match` occurs (`content.find`),
and replace its first occurrence (`content.replace(match, substitute, 1)`
followed by seek/write/truncate). -/
def edit_files (fs : FS) (path mtch substitute : String) : String × FS :=
  if mtch = "" then (emptyMatchMsg, fs)
  else
    if (validate_path path).1 = false then ((validate_path path).2, fs)
    else
      match dictLookup fs.files path, fs.writeError path with
      | none, _ => ("Error: " ++ fileNotFoundMsg path ++ ", file not edited", fs)
      | some _, some msg => ("Error: " ++ msg ++ ", file not edited", fs)
      | some content, none =>
        if pyFindS mtch content = none then (notFoundMsg, fs)
        else
          ("Success",
            { fs with files := dictInsert fs.files path (pyReplaceFirst content mtch substitute) })

/-! ## The unsandboxed variant (src/main.py) -/

/-- `edit_files` from src/main.py: no empty-`match` guard, no path
validation, and `content.replace(match, substitute)` without a count, so
every occurrence is replaced (and an empty `match` splices the
substitute around every character). -/
def main_edit_files (fs : FS) (path mtch substitute : String) : String × FS :=
  match dictLookup fs.files path, fs.writeError path with
  | none, _ => ("Error: " ++ fileNotFoundMsg path, fs)
  | some _, some msg => ("Error: " ++ msg, fs)
  | some content, none =>
    ("Success",
      { fs with files := dictInsert fs.files path (pyReplaceAll content mtch substitute) })

/-! ## Read tools (src/read_files.py) -/

/-- `read_file`: `open(path, "r")` and return the contents; a failure
propagates (modelled as `none`). -/
def read_file (fs : FS) (path : String) : Option String :=
  dictLookup fs.files path

/-- `read_multiple_files`: build a dictionary mapping each requested path
to its contents, or to Python `None` (here the inner `none`) when the
read fails; no failure escapes the loop. -/
def read_multiple_files (fs : FS) (paths : List String) :
    List (String × Option String) :=
  paths.foldl (fun ret path => dictInsert ret path (read_file fs path)) []

/-! ## list_files, recursive branch (src/read_files.py and src/main.py)

The directory subtree under the requested path is modelled as a rose
tree: each directory holds a list of named subdirectories and a list of
file names.  `os.walk` is modelled by its documented top-down behavior:
it yields `(root, dirnames, filenames)` for the start directory and then
recurses into each subdirectory, with `root` the start path extended by
`os.path.join`. -/

mutual
inductive DirTree : Type where
  | node (subdirs : DirForest) (fileNames : List String) : DirTree

inductive DirForest : Type where
  | nil : DirForest
  | cons (name : String) (tree : DirTree) (rest : DirForest) : DirForest
end

/-- The subdirectory names of a directory, as `os.walk` reports them. -/
def dirNames : DirForest → List String
  | .nil => []
  | .cons name _ rest => name :: dirNames rest

mutual
/-- `os.walk(root)` over the modelled subtree: the `(root, dirnames,
filenames)` triples in top-down order. -/
def walkT (root : String) : DirTree → List (String × List String × List String)
  | .node ds fileNames => (root, dirNames ds, fileNames) :: walkF root ds

/-- `os.walk` continued over the subdirectories of `root`. -/
def walkF (root : String) : DirForest → List (String × List String × List String)
  | .nil => []
  | .cons name tree rest => walkT (pjoin root name) tree ++ walkF root rest
end

/-- The `recursive=True` branch of `list_files`: for every `(root, _,
files)` yielded by `os.walk(path)`, append `os.path.join(root, file)`
for each file. -/
def list_files_recursive (path : String) (t : DirTree) : List String :=
  (walkT path t).flatMap (fun rdf => rdf.2.2.map (fun f => pjoin rdf.1 f))

mutual
/-- The segment paths (subdirectory names followed by a file name) at
which the modelled subtree holds a file. -/
inductive FileAt : DirTree → List String → Prop where
  | here {ds fileNames name} : name ∈ fileNames → FileAt (.node ds fileNames) [name]
  | deeper {ds fileNames segs} : FileAtF ds segs → FileAt (.node ds fileNames) segs

/-- `FileAt` lifted to a forest of named subdirectories. -/
inductive FileAtF : DirForest → List String → Prop where
  | head {name tree rest segs} : FileAt tree segs → FileAtF (.cons name tree rest) (name :: segs)
  | tail {name tree rest segs} : FileAtF rest segs → FileAtF (.cons name tree rest) segs
end

/-- Join a list of segments onto a root path, left to right. -/
def joinSegs (root : String) (segs : List String) : String :=
  segs.foldl pjoin root

/-- The contract of the validator as the specification words it: fail
naming the path when the path is not absolute; otherwise normalize,
split on the separator, and fail naming the path when any segment
equals the parent-directory token; otherwise succeed with an empty
message.  Stated as a second definition to be compared with
`validate_path`, which is translated from the source. -/
def validate_path_spec (path : String) : Bool × String :=
  if ¬ isabs path then (false, msgNotAbsolute path)
  else
    let segs := strSplitSlash (normpath path)
    if segs.any (fun seg => seg = "..") then (false, msgParentSegment path)
    else (true, "")

/-! ## Helper lemmas -/

theorem dictLookup_dictInsert {α : Type} (d : List (String × α)) (k key : String) (v : α) :
    dictLookup (dictInsert d k v) key = if k = key then some v else dictLookup d key := by
  induction d with
  | nil => simp [dictInsert, dictLookup]
  | cons kv rest ih =>
    obtain ⟨k1, v1⟩ := kv
    simp only [dictInsert]
    by_cases h1 : k1 = k
    · subst h1
      simp only [if_pos rfl, dictLookup]
      by_cases h3 : k1 = key <;> simp [h3]
    · simp only [if_neg h1, dictLookup]
      by_cases h2 : k1 = key
      · subst h2
        have h3 : ¬ k = k1 := fun h => h1 h.symm
        simp [h3]
      · simp [h2, ih]

theorem isPrefixOf_self_append (xs ys : List Char) :
    List.isPrefixOf xs (xs ++ ys) = true := by
  induction xs with
  | nil => simp [List.isPrefixOf]
  | cons c cs ih => simp [List.isPrefixOf, ih]

/-- Python `find` succeeds on any haystack that holds the needle. -/
theorem pyFindL_sandwich (a needle b : List Char) :
    (pyFindL needle (a ++ needle ++ b)).isSome = true := by
  induction a with
  | nil =>
    cases hn : needle with
    | nil => cases b <;> simp [pyFindL, List.isPrefixOf]
    | cons c cs =>
      have hrw : (([] : List Char) ++ (c :: cs) ++ b) = c :: (cs ++ b) := by simp
      have hpre : List.isPrefixOf (c :: cs) (c :: (cs ++ b)) = true :=
        isPrefixOf_self_append (c :: cs) b
      rw [hrw]
      simp only [pyFindL]
      rw [if_pos hpre]
      rfl
  | cons x a' ih =>
    have hrw : ((x :: a') ++ needle ++ b) = x :: (a' ++ needle ++ b) := by simp
    rw [hrw]
    simp only [pyFindL]
    by_cases hp : List.isPrefixOf needle (x :: (a' ++ needle ++ b)) = true
    · rw [if_pos hp]
      rfl
    · obtain ⟨j, hj⟩ := Option.isSome_iff_exists.mp ih
      rw [if_neg hp, hj]
      rfl

/-- Characterization of Python `str.replace(needle, sub, 1)`: when the
needle first occurs at index `i`, exactly the span `[i, i + |needle|)`
is rewritten and everything else is kept verbatim. -/
theorem replaceFirstL_eq_of_pyFindL (needle sub : List Char) (hne : needle ≠ []) :
    ∀ (hay : List Char) (i : Nat), pyFindL needle hay = some i →
      replaceFirstL needle sub hay =
        hay.take i ++ sub ++ hay.drop (i + needle.length) := by
  intro hay
  induction hay with
  | nil => intro i h; simp [pyFindL, hne] at h
  | cons c rest ih =>
    intro i h
    simp only [pyFindL] at h
    by_cases hp : List.isPrefixOf needle (c :: rest) = true
    · rw [if_pos hp] at h
      obtain rfl : (0 : Nat) = i := Option.some.inj h
      simp only [replaceFirstL]
      rw [if_pos hp]
      simp
    · rw [if_neg hp] at h
      cases hf : pyFindL needle rest with
      | none => rw [hf] at h; simp at h
      | some j =>
        rw [hf] at h
        simp only [Option.map_some'] at h
        obtain rfl : j + 1 = i := Option.some.inj h
        simp only [replaceFirstL]
        rw [if_neg hp, ih j hf]
        have harith : j + 1 + needle.length = (j + needle.length) + 1 := by omega
        rw [harith]
        simp [List.take_succ_cons, List.drop_succ_cons]

/-- Python `find` on strings succeeds on a haystack assembled around the
needle. -/
theorem pyFindS_sandwich (a p b : String) :
    (pyFindS p (a ++ p ++ b)).isSome = true := by
  unfold pyFindS
  have h : (a ++ p ++ b).data = a.data ++ p.data ++ b.data := by
    simp [String.data_append]
  rw [h]
  exact pyFindL_sandwich a.data p.data b.data


theorem lookup_read_multiple_files_aux (fs : FS) (paths : List String) :
    ∀ (acc : List (String × Option String)) (p : String),
      dictLookup (paths.foldl (fun ret path => dictInsert ret path (read_file fs path)) acc) p =
        if p ∈ paths then some (read_file fs p) else dictLookup acc p := by
  induction paths with
  | nil => intro acc p; simp
  | cons q rest ih =>
    intro acc p
    simp only [List.foldl_cons]
    rw [ih]
    by_cases hmem : p ∈ rest
    · simp [hmem]
    · rw [if_neg hmem, dictLookup_dictInsert]
      by_cases hq : q = p
      · subst hq
        simp
      · have hmm : ¬ p ∈ q :: rest := by
          intro hc
          rcases List.mem_cons.mp hc with h1 | h2
          · exact hq h1.symm
          · exact hmem h2
        rw [if_neg hq, if_neg hmm]

/-! ## Claim theorems -/

/-- C7: `validate_path` returns `(false, message naming the path)` on a
non-absolute path, otherwise normalizes the path, splits it on the
separator, and returns `(false, message naming the path)` when a segment
equals `..`; in all remaining cases it returns `(true, "")`.  The Lean
embedding is a plain function, so the validator is a pure function of
its input.  The first conjunct compares the source translation with
`validate_path_spec`, the definition following the claim's wording; the
other two show that each failure message names the offending path
(Python `find` locates it). -/
theorem validate_path_matches_spec (p : String) :
    validate_path p = validate_path_spec p ∧
    (pyFindS p (msgNotAbsolute p)).isSome = true ∧
    (pyFindS p (msgParentSegment p)).isSome = true := by
  refine ⟨?eq, ?m1, ?m2⟩
  · unfold validate_path validate_path_spec
    by_cases ha : isabs p
    · by_cases hm : ".." ∈ strSplitSlash (normpath p) <;>
        simp [ha, hm, List.any_eq_true]
    · simp [ha]
  · have h := pyFindS_sandwich ("Error: Path " ++ squote) p
      (squote ++ " is not absolute. Only absolute paths are allowed.")
    have hmsg : msgNotAbsolute p =
        ("Error: Path " ++ squote) ++ p
          ++ (squote ++ " is not absolute. Only absolute paths are allowed.") := by
      unfold msgNotAbsolute
      apply String.ext
      simp [String.data_append, List.append_assoc]
    rw [hmsg]
    exact h
  · have h := pyFindS_sandwich ("Error: Path " ++ squote) p
      (squote ++ " contains " ++ squote ++ ".." ++ squote ++ " symbols which are not allowed.")
    have hmsg : msgParentSegment p =
        ("Error: Path " ++ squote) ++ p
          ++ (squote ++ " contains " ++ squote ++ ".." ++ squote
              ++ " symbols which are not allowed.") := by
      unfold msgParentSegment
      apply String.ext
      simp [String.data_append, List.append_assoc]
    rw [hmsg]
    exact h

/-- C3 (amended to the sandboxed variant): `edit_files` from
src/write_files.py called with an empty `match` returns the fixed
"cannot be empty" message and the untouched filesystem state, for every
path (validated or not) and every substitute — the guard sits before
path validation and before any file access. -/
theorem edit_files_empty_match (fs : FS) (path substitute : String) :
    edit_files fs path "" substitute = (emptyMatchMsg, fs) := rfl

/-- C3 counterexample to the claim as stated: the `edit_files` variant
in src/main.py (also cited by the claim) has no empty-`match` guard; on
a file holding `"ab"` it returns `"Success"`, not the fixed message, and
rewrites the file to `"XaXbX"` — the bytes change. -/
theorem main_edit_files_empty_match_succeeds :
    (main_edit_files ⟨[("/f2", "ab")], fun _ => none⟩ "/f2" "" "X").1 = "Success" ∧
    (main_edit_files ⟨[("/f2", "ab")], fun _ => none⟩ "/f2" "" "X").1 ≠ emptyMatchMsg ∧
    dictLookup (main_edit_files ⟨[("/f2", "ab")], fun _ => none⟩ "/f2" "" "X").2.files "/f2"
      = some "XaXbX" := by
  refine ⟨rfl, by decide, rfl⟩

/-- C5: `read_multiple_files` returns a mapping keyed by the exact path
strings supplied (duplicates collapse onto one key), where a path maps
to `some` content exactly when the read succeeds and to Python `None`
when it fails; every requested path has an entry, so no failure aborts
the batch. -/
theorem read_multiple_files_lookup (fs : FS) (paths : List String) (p : String) :
    dictLookup (read_multiple_files fs paths) p =
      if p ∈ paths then some (read_file fs p) else none := by
  unfold read_multiple_files
  rw [lookup_read_multiple_files_aux fs paths [] p]
  rfl

/-- C2 (code bug): the path `/a/../b` contains a parent-directory `..`
segment, yet `validate_path` accepts it — normalization resolves the
`..` away before the check, contradicting the validator's own docstring
— and the sandboxed `write_whole_file` then modifies the filesystem. -/
theorem write_whole_file_accepts_dotdot_path :
    ".." ∈ strSplitSlash "/a/../b" ∧
    validate_path "/a/../b" = (true, "") ∧
    (write_whole_file ⟨[], fun _ => none⟩ "/a/../b" "x").1 = "Success" ∧
    (write_whole_file ⟨[], fun _ => none⟩ "/a/../b" "x").2.files = [("/a/../b", "x")] := by
  refine ⟨by decide, by decide, rfl, rfl⟩

/-- C1 (amended to the sandboxed variant): when the file at a validated
path holds `content` whose first occurrence of the non-empty `match`
starts at index `i`, `edit_files` from src/write_files.py returns
`"Success"` and rewrites exactly the span `[i, i + |match|)` to the
substitute: the prefix before `i` and the whole suffix from
`i + |match|` on — which holds every further occurrence — are kept
verbatim. -/
theorem edit_files_replaces_first_occurrence
    (fs : FS) (path mtch substitute content : String) (i : Nat)
    (hm : mtch ≠ "")
    (hv : validate_path path = (true, ""))
    (hf : dictLookup fs.files path = some content)
    (hw : fs.writeError path = none)
    (hi : pyFindS mtch content = some i) :
    edit_files fs path mtch substitute =
      ("Success",
        { fs with files := dictInsert fs.files path
                             (String.mk (content.data.take i ++ substitute.data
                               ++ content.data.drop (i + mtch.data.length))) }) := by
  have hmd : mtch.data ≠ [] := fun h => hm (String.ext h)
  have hrep : replaceFirstL mtch.data substitute.data content.data
      = content.data.take i ++ substitute.data ++ content.data.drop (i + mtch.data.length) :=
    replaceFirstL_eq_of_pyFindL mtch.data substitute.data hmd content.data i hi
  simp [edit_files, pyReplaceFirst, hm, hv, hf, hw, hi, hrep]

/-- C1 witness: the specification's own example, editing a file holding
`"abcabc"` with match `"abc"` and substitute `"X"` yields `"Xabc"`. -/
theorem edit_files_replaces_first_occurrence_witness :
    edit_files ⟨[("/doc.txt", "abcabc")], fun _ => none⟩ "/doc.txt" "abc" "X"
      = ("Success", ⟨[("/doc.txt", "Xabc")], fun _ => none⟩) :=
  edit_files_replaces_first_occurrence ⟨[("/doc.txt", "abcabc")], fun _ => none⟩
    "/doc.txt" "abc" "X" "abcabc" 0 (by decide) (by decide) rfl rfl (by decide)

/-- C1 counterexample to the claim as stated: the `edit_files` variant
in src/main.py (also cited by the claim) calls `content.replace(match,
substitute)` without a count, so on `"abcabc"` with match `"abc"` and
substitute `"X"` it produces `"XX"`, not `"Xabc"` — the occurrence
beyond the first is not left untouched. -/
theorem main_edit_files_replaces_all_occurrences :
    (main_edit_files ⟨[("/f1", "abcabc")], fun _ => none⟩ "/f1" "abc" "X").1 = "Success" ∧
    dictLookup (main_edit_files ⟨[("/f1", "abcabc")], fun _ => none⟩ "/f1" "abc" "X").2.files "/f1"
      = some "XX" ∧
    dictLookup (main_edit_files ⟨[("/f1", "abcabc")], fun _ => none⟩ "/f1" "abc" "X").2.files "/f1"
      ≠ some "Xabc" := by
  refine ⟨rfl, rfl, by decide⟩

/-- C4 (amended to the sandboxed variant): when the file at a validated
path exists and is readable but its content does not contain the
non-empty `match`, `edit_files` from src/write_files.py returns the
"match not found" error and returns the filesystem state unchanged —
the file is left byte-for-byte identical. -/
theorem edit_files_match_not_found
    (fs : FS) (path mtch substitute content : String)
    (hm : mtch ≠ "")
    (hv : validate_path path = (true, ""))
    (hf : dictLookup fs.files path = some content)
    (hw : fs.writeError path = none)
    (hn : pyFindS mtch content = none) :
    edit_files fs path mtch substitute = (notFoundMsg, fs) := by
  simp [edit_files, hm, hv, hf, hw, hn]

/-- C4 witness: editing `"hello"` with the absent match `"zz"` returns
the "not found" error and the unchanged state. -/
theorem edit_files_match_not_found_witness :
    edit_files ⟨[("/n.txt", "hello")], fun _ => none⟩ "/n.txt" "zz" "Q"
      = (notFoundMsg, ⟨[("/n.txt", "hello")], fun _ => none⟩) :=
  edit_files_match_not_found ⟨[("/n.txt", "hello")], fun _ => none⟩
    "/n.txt" "zz" "Q" "hello" (by decide) (by decide) rfl rfl (by decide)

/-- C4 counterexample to the claim as stated: the `edit_files` variant
in src/main.py (also cited by the claim) has no occurrence check;
editing `"hello"` with the absent match `"zz"` returns `"Success"`
rather than an error (the content happens to stay unchanged). -/
theorem main_edit_files_match_not_found_success :
    (main_edit_files ⟨[("/f3", "hello")], fun _ => none⟩ "/f3" "zz" "Q").1 = "Success" ∧
    (main_edit_files ⟨[("/f3", "hello")], fun _ => none⟩ "/f3" "zz" "Q").1 ≠ notFoundMsg ∧
    dictLookup (main_edit_files ⟨[("/f3", "hello")], fun _ => none⟩ "/f3" "zz" "Q").2.files "/f3"
      = some "hello" := by
  refine ⟨rfl, by decide, rfl⟩

/-- C8: for a path accepted by the sandbox, a `write_whole_file` call
that returns `"Success"` (the write-fault oracle yields exception texts,
never the literal `"Success"`) leaves a state from which `read_file`
returns exactly the written content. -/
theorem write_then_read_roundtrip
    (fs fs' : FS) (p c : String)
    (hv : validate_path p = (true, ""))
    (hnf : faultsNotSuccess fs)
    (hw : write_whole_file fs p c = ("Success", fs')) :
    read_file fs' p = some c := by
  unfold write_whole_file at hw
  rw [hv] at hw
  have hw2 : writeInner fs p c = ("Success", fs') := by simpa using hw
  unfold writeInner at hw2
  cases hE : fs.writeError p with
  | some msg =>
    rw [hE] at hw2
    exact absurd (congrArg Prod.fst hw2) (hnf p msg hE)
  | none =>
    rw [hE] at hw2
    have hfs : ({ fs with files := dictInsert fs.files p c } : FS) = fs' :=
      congrArg Prod.snd hw2
    rw [← hfs]
    unfold read_file
    simp [dictLookup_dictInsert]

/-- C8 witness: writing `"hi"` to `/w.txt` on an empty fault-free state
and reading it back returns `"hi"`. -/
theorem write_then_read_roundtrip_witness :
    read_file (write_whole_file ⟨[], fun _ => none⟩ "/w.txt" "hi").2 "/w.txt" = some "hi" :=
  write_then_read_roundtrip ⟨[], fun _ => none⟩
    (write_whole_file ⟨[], fun _ => none⟩ "/w.txt" "hi").2 "/w.txt" "hi"
    (by decide) (fun p m h => Option.noConfusion h) rfl

/-- The per-path outcomes `write_multiple_files` may record for a path:
Python's success marker, the validator's message when validation failed,
or the fault text the OS raised for that path. -/
def itemOutcome (fs : FS) (path outcome : String) : Prop :=
  outcome = "Success" ∨ outcome = (validate_path path).2 ∨
    ∃ m, fs.writeError path = some m ∧ outcome = m

/-- Worker lemma for C6: over well-formed items the loop never raises
and, relative to any starting accumulator, every key of the final
mapping is either inherited or carries a legitimate per-path outcome,
and every processed item's path has an entry. -/
theorem write_multiple_files_go_ok (items : List PyDict) :
    ∀ (fs : FS) (results : List (String × String)),
      (∀ d ∈ items, (dictLookup d "path").isSome ∧ (dictLookup d "content").isSome) →
      ∃ results' fs',
        write_multiple_files_go fs results items = (Except.ok results', fs') ∧
        fs'.writeError = fs.writeError ∧
        (∀ key, dictLookup results' key = dictLookup results key ∨
          ∃ outcome, dictLookup results' key = some outcome ∧ itemOutcome fs key outcome) ∧
        (∀ d ∈ items, ∀ p, dictLookup d "path" = some p → (dictLookup results' p).isSome) := by
  induction items with
  | nil =>
    intro fs results _
    exact ⟨results, fs, rfl, rfl, fun key => Or.inl rfl, fun d hd => absurd hd (by simp)⟩
  | cons d rest ih =>
    intro fs results hwf
    obtain ⟨hdp, hdc⟩ := hwf d (List.mem_cons_self d rest)
    obtain ⟨path, hp⟩ := Option.isSome_iff_exists.mp hdp
    obtain ⟨content, hc⟩ := Option.isSome_iff_exists.mp hdc
    have hwf' : ∀ x ∈ rest, (dictLookup x "path").isSome ∧ (dictLookup x "content").isSome :=
      fun x hx => hwf x (List.mem_cons_of_mem d hx)
    -- the outcome recorded for this item, and the state it leaves behind
    by_cases hval : (validate_path path).1 = false
    · obtain ⟨results', fs', hgo, hwe, hkeys, hcov⟩ :=
        ih fs (dictInsert results path (validate_path path).2) hwf'
      refine ⟨results', fs', ?_, hwe, ?_, ?_⟩
      · simp only [write_multiple_files_go, hp, hc, if_pos hval]
        exact hgo
      · intro key
        rcases hkeys key with hk | hk
        · rw [hk, dictLookup_dictInsert]
          by_cases hpk : path = key

          · subst hpk
            exact Or.inr ⟨(validate_path path).2, by simp, Or.inr (Or.inl rfl)⟩
          · rw [if_neg hpk]
            exact Or.inl rfl
        · exact Or.inr hk
      · intro x hx p hxp
        rcases List.mem_cons.mp hx with rfl | hx'
        · rw [hp] at hxp
          obtain rfl : path = p := Option.some.inj hxp
          rcases hkeys path with hk | hk
          · rw [hk, dictLookup_dictInsert, if_pos rfl]
            rfl
          · rw [hk.choose_spec.1]
            rfl
        · exact hcov x hx' p hxp
    · obtain ⟨results', fs', hgo, hwe, hkeys, hcov⟩ :=
        ih (writeInner fs path content).2
          (dictInsert results path (writeInner fs path content).1) hwf'
      have hwInner : (writeInner fs path content).2.writeError = fs.writeError := by
        unfold writeInner
        cases hE : fs.writeError path <;> rfl
      have hout : itemOutcome fs path (writeInner fs path content).1 := by
        unfold writeInner itemOutcome
        cases hE : fs.writeError path with
        | none => exact Or.inl rfl
        | some m => exact Or.inr (Or.inr ⟨m, rfl, rfl⟩)
      refine ⟨results', fs', ?_, hwe.trans hwInner, ?_, ?_⟩
      · simp only [write_multiple_files_go, hp, hc, if_neg hval]
        exact hgo
      · intro key
        rcases hkeys key with hk | hk
        · rw [hk, dictLookup_dictInsert]
          by_cases hpk : path = key
          · subst hpk
            exact Or.inr ⟨(writeInner fs path content).1, by simp, hout⟩
          · rw [if_neg hpk]
            exact Or.inl rfl
        · rcases hk with ⟨outcome, ho, hcase⟩
          refine Or.inr ⟨outcome, ho, ?_⟩
          unfold itemOutcome at hcase ⊢
          rwa [hwInner] at hcase
      · intro x hx p hxp
        rcases List.mem_cons.mp hx with rfl | hx'
        · rw [hp] at hxp
          obtain rfl : path = p := Option.some.inj hxp
          rcases hkeys path with hk | hk
          · rw [hk, dictLookup_dictInsert, if_pos rfl]
            rfl
          · rw [hk.choose_spec.1]
            rfl
        · exact hcov x hx' p hxp

/-- C6: over any input list whose items carry the `path` and `content`
keys, `write_multiple_files` validates and writes every item
independently: the call always returns a result mapping (never an
escaped error), and every item's path has an entry recording either
`"Success"`, the validator's message for that path, or the OS fault
text for that path — so no item's validation or write failure prevents
the items after it from being attempted and recorded. -/
theorem write_multiple_files_per_item_outcomes
    (fs : FS) (items : List PyDict)
    (hwf : ∀ d ∈ items, (dictLookup d "path").isSome ∧ (dictLookup d "content").isSome) :
    ∃ results fs',
      write_multiple_files fs items = (Except.ok results, fs') ∧
      ∀ d ∈ items, ∀ path, dictLookup d "path" = some path →
        ∃ outcome, dictLookup results path = some outcome ∧ itemOutcome fs path outcome := by
  obtain ⟨results, fs', hgo, _, hkeys, hcov⟩ := write_multiple_files_go_ok items fs [] hwf
  refine ⟨results, fs', hgo, ?_⟩
  intro d hd path hpath
  have hsome := hcov d hd path hpath
  rcases hkeys path with hk | hk
  · rw [hk] at hsome
    exact absurd hsome (by simp [dictLookup])
  · exact hk

/-- C6 witness: a faulting write to `/bad` (fault text `"boom"`)
followed by a clean write to `/ok`: the batch returns a mapping and both
paths carry a legitimate outcome — the later item was attempted. -/
theorem write_multiple_files_per_item_outcomes_witness :
    ∃ results fs',
      write_multiple_files ⟨[], fun q => if q = "/bad" then some "boom" else none⟩
          [[("path", "/bad"), ("content", "y")], [("path", "/ok"), ("content", "x")]]
        = (Except.ok results, fs') ∧
      ∀ d ∈ [[("path", "/bad"), ("content", "y")], [("path", "/ok"), ("content", "x")]],
        ∀ path, dictLookup d "path" = some path →
          ∃ outcome, dictLookup results path = some outcome ∧
            itemOutcome ⟨[], fun q => if q = "/bad" then some "boom" else none⟩ path outcome :=
  write_multiple_files_per_item_outcomes ⟨[], fun q => if q = "/bad" then some "boom" else none⟩
    [[("path", "/bad"), ("content", "y")], [("path", "/ok"), ("content", "x")]] (by decide)

/-- Worker lemma for C10: with well-formed items before it, an item
lacking a required key makes `write_multiple_files_go` propagate a
`KeyError` — whatever items follow, they are never reached and the
outcome equals that of the batch truncated right after the bad item. -/
theorem write_multiple_files_go_keyerror (bad : PyDict)
    (hbad : dictLookup bad "path" = none ∨ dictLookup bad "content" = none) :
    ∀ (pre : List PyDict) (fs : FS) (results : List (String × String)) (post : List PyDict),
      (∀ d ∈ pre, (dictLookup d "path").isSome ∧ (dictLookup d "content").isSome) →
      (∃ k, (k = "path" ∨ k = "content") ∧
          (write_multiple_files_go fs results (pre ++ bad :: post)).1
            = Except.error (keyErrorMsg k)) ∧
      write_multiple_files_go fs results (pre ++ bad :: post)
        = write_multiple_files_go fs results (pre ++ [bad]) := by
  intro pre
  induction pre with
  | nil =>
    intro fs results post _
    cases hp : dictLookup bad "path" with
    | none =>
      constructor
      · exact ⟨"path", Or.inl rfl, by simp [write_multiple_files_go, hp]⟩
      · simp [write_multiple_files_go, hp]
    | some path =>
      have hc : dictLookup bad "content" = none := by
        rcases hbad with h | h
        · rw [hp] at h; exact absurd h (by simp)
        · exact h
      constructor
      · exact ⟨"content", Or.inr rfl, by simp [write_multiple_files_go, hp, hc]⟩
      · simp [write_multiple_files_go, hp, hc]
  | cons d pre' ih =>
    intro fs results post hpre
    obtain ⟨hdp, hdc⟩ := hpre d (List.mem_cons_self d pre')
    obtain ⟨path, hp⟩ := Option.isSome_iff_exists.mp hdp
    obtain ⟨content, hc⟩ := Option.isSome_iff_exists.mp hdc
    have hpre' : ∀ x ∈ pre', (dictLookup x "path").isSome ∧ (dictLookup x "content").isSome :=
      fun x hx => hpre x (List.mem_cons_of_mem d hx)
    simp only [List.cons_append, write_multiple_files_go, hp, hc]
    by_cases hval : (validate_path path).1 = false
    · rw [if_pos hval, if_pos hval]
      exact ih fs (dictInsert results path (validate_path path).2) post hpre'
    · rw [if_neg hval, if_neg hval]
      exact ih (writeInner fs path content).2
        (dictInsert results path (writeInner fs path content).1) post hpre'

/-- C10: when an item of the `write_multiple_files` input lacks the
`path` or `content` key, the subscript access sits outside the
fault-catching block, so the call raises a `KeyError` (an error escapes
instead of a result mapping being returned) and the items after the
malformed one are never attempted: the whole call, filesystem effects
included, equals the call on the batch truncated right after the
malformed item. -/
theorem write_multiple_files_keyerror
    (fs : FS) (pre post : List PyDict) (bad : PyDict)
    (hpre : ∀ d ∈ pre, (dictLookup d "path").isSome ∧ (dictLookup d "content").isSome)
    (hbad : dictLookup bad "path" = none ∨ dictLookup bad "content" = none) :
    (∃ k, (k = "path" ∨ k = "content") ∧
        (write_multiple_files fs (pre ++ bad :: post)).1 = Except.error (keyErrorMsg k)) ∧
    write_multiple_files fs (pre ++ bad :: post) = write_multiple_files fs (pre ++ [bad]) :=
  write_multiple_files_go_keyerror bad hbad pre fs [] post hpre

/-- C10 witness: a good item, then an item missing `content`, then a
further good item: the call equals the call truncated after the bad
item — the trailing item is never processed. -/
theorem write_multiple_files_keyerror_witness :
    write_multiple_files ⟨[], fun _ => none⟩
        ([[("path", "/w1"), ("content", "a")]] ++ [("path", "/w2")] :: [[("path", "/w3"), ("content", "c")]])
      = write_multiple_files ⟨[], fun _ => none⟩
          ([[("path", "/w1"), ("content", "a")]] ++ [[("path", "/w2")]]) :=
  (write_multiple_files_keyerror ⟨[], fun _ => none⟩
    [[("path", "/w1"), ("content", "a")]] [[("path", "/w3"), ("content", "c")]]
    [("path", "/w2")] (by decide) (by decide)).2

/-- The files collected by the recursive listing from the `os.walk`
entries of a forest of subdirectories. -/
def forestFiles (root : String) (ds : DirForest) : List String :=
  (walkF root ds).flatMap (fun rdf => rdf.2.2.map (fun f => pjoin rdf.1 f))

theorem list_files_recursive_node (root : String) (ds : DirForest) (fileNames : List String) :
    list_files_recursive root (.node ds fileNames)
      = fileNames.map (fun f => pjoin root f) ++ forestFiles root ds := by
  unfold list_files_recursive walkT forestFiles
  rw [List.flatMap_cons]

theorem forestFiles_nil (root : String) : forestFiles root .nil = [] := rfl

theorem forestFiles_cons (root name : String) (tree : DirTree) (rest : DirForest) :
    forestFiles root (.cons name tree rest)
      = list_files_recursive (pjoin root name) tree ++ forestFiles root rest := by
  simp only [forestFiles, walkF, list_files_recursive, List.flatMap_append]

/-- Membership characterization of the recursive listing, proved by the
mutual recursor over the tree and the forest of subdirectories. -/
theorem mem_list_files_aux :
    ∀ (t : DirTree) (root e : String),
      e ∈ list_files_recursive root t ↔ ∃ segs, FileAt t segs ∧ e = joinSegs root segs :=
  @DirTree.rec
    (fun t => ∀ root e,
      e ∈ list_files_recursive root t ↔ ∃ segs, FileAt t segs ∧ e = joinSegs root segs)
    (fun ds => ∀ root e,
      e ∈ forestFiles root ds ↔ ∃ segs, FileAtF ds segs ∧ e = joinSegs root segs)
    (fun ds fileNames ihds root e => by
      rw [list_files_recursive_node]
      constructor
      · intro h
        rcases List.mem_append.mp h with h1 | h2
        · rcases List.mem_map.mp h1 with ⟨name, hname, rfl⟩
          exact ⟨[name], FileAt.here hname, rfl⟩
        · rcases (ihds root e).mp h2 with ⟨segs, hsegs, rfl⟩
          exact ⟨segs, FileAt.deeper hsegs, rfl⟩
      · rintro ⟨segs, hsegs, rfl⟩
        cases hsegs with
        | here hname =>
          exact List.mem_append.mpr (Or.inl (List.mem_map.mpr ⟨_, hname, rfl⟩))
        | deeper hF =>
          exact List.mem_append.mpr (Or.inr ((ihds root _).mpr ⟨segs, hF, rfl⟩)))
    (fun root e => by
      rw [forestFiles_nil]
      constructor
      · intro h
        exact absurd h (List.not_mem_nil e)
      · rintro ⟨segs, hsegs, rfl⟩
        cases hsegs)
    (fun name tree rest ihtree ihrest root e => by
      rw [forestFiles_cons]
      constructor
      · intro h
        rcases List.mem_append.mp h with h1 | h2
        · rcases (ihtree (pjoin root name) e).mp h1 with ⟨segs, hsegs, rfl⟩
          exact ⟨name :: segs, FileAtF.head hsegs, rfl⟩
        · rcases (ihrest root e).mp h2 with ⟨segs, hsegs, rfl⟩
          exact ⟨segs, FileAtF.tail hsegs, rfl⟩
      · rintro ⟨segs, hsegs, rfl⟩
        cases hsegs with
        | head htree =>
          exact List.mem_append.mpr (Or.inl ((ihtree (pjoin root name) _).mpr ⟨_, htree, rfl⟩))
        | tail hrest =>
          exact List.mem_append.mpr (Or.inr ((ihrest root _).mpr ⟨segs, hrest, rfl⟩)))

/-- C9: the recursive listing of a directory subtree returns exactly the
paths obtained by joining the traversal root down through subdirectory
names to a file name: every returned entry is such a file path (so no
directory is listed as an entry, at any nesting depth), and every file
of the subtree contributes its entry. -/
theorem list_files_recursive_mem (t : DirTree) (root e : String) :
    e ∈ list_files_recursive root t ↔ ∃ segs, FileAt t segs ∧ e = joinSegs root segs :=
  mem_list_files_aux t root e

end McpServer
